import Mathlib

/-!
# Card store of `main.go`: validation, slug derivation and the CRUD handlers

Go strings are modelled as sequences of Unicode code points (`List Char`): every
string the handlers compare or normalise comes out of `json.Unmarshal`, which
yields valid UTF-8, so a rune of the Go string is one element of the list.
-/

namespace CardStore

/-- A Go `string`, as its sequence of runes. -/
abbrev GoString := List Char

/-! ## Library functions used by `slugify` and `validateCard` -/

/-- Go `unicode.IsSpace`: the Latin-1 spaces `\t \n \v \f \r`, space, U+0085, U+00A0
and the other runes with the White_Space property. -/
def isSpace (c : Char) : Bool :=
  let n := c.toNat
  (9 ≤ n && n ≤ 13) || n == 0x20 || n == 0x85 || n == 0xA0 || n == 0x1680 ||
  (0x2000 ≤ n && n ≤ 0x200A) || n == 0x2028 || n == 0x2029 || n == 0x202F ||
  n == 0x205F || n == 0x3000

/-- Go `strings.TrimFunc`-style trimming: drop the runes satisfying `p` at both ends. -/
def trimFunc (p : Char → Bool) (s : GoString) : GoString :=
  ((s.dropWhile p).reverse.dropWhile p).reverse

/-- Go `strings.TrimSpace`. -/
def TrimSpace (s : GoString) : GoString := trimFunc isSpace s

/-- Go `strings.Trim(s, "-")`: the cutset is the single rune `-`. -/
def TrimHyphen (s : GoString) : GoString := trimFunc (fun c => c == '-') s

/-- Go `unicode.ToLower` on one rune. Only the mappings whose image lies in the slug
alphabet are tabulated: `A`–`Z`, U+0130 (to `i`) and U+212A (to `k`). Every other
rune that Go maps to a different lower-case rune lies outside `[a-z0-9一-龥]` and so
does its image, hence `slugRe` replaces it either way and leaving it in place
does not change any slug. -/
def toLowerRune (c : Char) : Char :=
  if 'A' ≤ c ∧ c ≤ 'Z' then Char.ofNat (c.toNat + 32)
  else if c.toNat = 0x130 then 'i'
  else if c.toNat = 0x212A then 'k'
  else c

/-- Go `strings.ToLower`. -/
def ToLower (s : GoString) : GoString := s.map toLowerRune

/-- The complement of the character class of `slugRe`:
`a-z`, `0-9` and U+4E00..U+9FA5 are the runes the expression does NOT match. -/
def slugKeep (c : Char) : Bool :=
  let n := c.toNat
  (0x61 ≤ n && n ≤ 0x7A) || (0x30 ≤ n && n ≤ 0x39) || (0x4E00 ≤ n && n ≤ 0x9FA5)

/-- The loop of `slugRe.ReplaceAllString(s, "-")` for
`slugRe = [^a-z0-9\x{4e00}-\x{9fa5}]+`: matches are found left to right, each
match is greedy, so it starts at a rune of the class and extends over all the
following ones. `inMatch` says the previous rune belongs to the match that is
being consumed (whose replacement `-` is already emitted). -/
def replaceFrom : Bool → GoString → GoString
  | _, [] => []
  | inMatch, c :: cs =>
    if slugKeep c then c :: replaceFrom false cs
    else if inMatch then replaceFrom true cs
    else '-' :: replaceFrom true cs

/-- Go `slugRe.ReplaceAllString(s, "-")`. -/
def slugReReplaceAll (s : GoString) : GoString := replaceFrom false s

/-- Go `utf8.RuneCountInString`. -/
def RuneCountInString (s : GoString) : Nat := s.length

/-! ## `slugify` (main.go, lines 105–114) -/

/-- The slug before the length cut: lines 106–108 of `slugify`. -/
def slugUntruncated (text : GoString) : GoString :=
  let lower := ToLower text
  let slug := slugReReplaceAll lower
  TrimHyphen slug

/-- Go `slugify`. -/
def slugify (text : GoString) : GoString :=
  let slug := slugUntruncated text
  if RuneCountInString slug > 80 then
    -- runes := []rune(slug); slug = string(runes[:80])
    slug.take 80
  else slug

/-! ## Card model (main.go, lines 51–60) -/

/-- Go `type Card struct`. -/
structure Card where
  ID : GoString
  Term : GoString
  Category : GoString
  Core : GoString
  Boundary : GoString
  Signal : GoString
  Action : GoString
  Aliases : List GoString
deriving DecidableEq, Repr

/-- The zero value `Card{}`. -/
def Card.zero : Card := ⟨[], [], [], [], [], [], [], []⟩

/-- The IDs of a collection, in order. -/
def ids (cards : List Card) : List GoString := cards.map Card.ID

/-! ## `validateCard` (main.go, lines 116–160) -/

/-- Go `fmt.Sprintf("%d", n)` for an `int64`. -/
def formatInt (n : Int) : GoString := (toString n).toList

/-- Lines 128–134: the loop that trims every alias and appends the non-empty ones. -/
def collectAliases (input : List GoString) : List GoString :=
  input.foldl
    (fun aliases a =>
      let a := TrimSpace a
      if a ≠ [] then aliases ++ [a] else aliases)
    []

/-- Lines 136–142: the ID the card gets, from the caller's ID, the trimmed term
and `time.Now().UnixMilli()`. -/
def assignID (rawID term : GoString) (now : Int) : GoString :=
  let id := TrimSpace rawID
  let id := if id = [] then slugify term else id
  let id := if id = [] then "card-".toList ++ formatInt now else id
  id

/-- Lines 144–148: the loop over `cards` that returns at the first card whose ID is
`id` and is not `existingID`. -/
def hasDuplicate (id existingID : GoString) : List Card → Bool
  | [] => false
  | c :: cs => if c.ID = id ∧ c.ID ≠ existingID then true else hasDuplicate id existingID cs

/-- Message of the first `fmt.Errorf` of `validateCard`. -/
def errRequired : String := "term/category/core/boundary/signal/action 均为必填"

/-- Message of the second `fmt.Errorf` of `validateCard`. -/
def errDuplicate (id : GoString) : String := "卡片 id 已存在: " ++ String.mk id

/-- Go `validateCard`; `now` is the value `time.Now().UnixMilli()` has when it is called. -/
def validateCard (input : Card) (cards : List Card) (existingID : GoString) (now : Int) :
    Except String Card :=
  let term := TrimSpace input.Term
  let category := TrimSpace input.Category
  let core := TrimSpace input.Core
  let boundary := TrimSpace input.Boundary
  let signal := TrimSpace input.Signal
  let action := TrimSpace input.Action
  if term = [] ∨ category = [] ∨ core = [] ∨ boundary = [] ∨ signal = [] ∨ action = [] then
    .error errRequired
  else
    let aliases := collectAliases input.Aliases
    let id := assignID input.ID term now
    if hasDuplicate id existingID cards then
      .error (errDuplicate id)
    else
      .ok
        { ID := id, Term := term, Category := category, Core := core, Boundary := boundary,
          Signal := signal, Action := action, Aliases := aliases }

/-! ## The data file and the HTTP handlers (main.go, lines 66–99 and 191–309) -/

/-- State of `data/cards.json`, by what `os.ReadFile` followed by `json.Unmarshal`
makes of it. -/
inductive DataFile where
  /-- The file does not exist. -/
  | absent
  /-- The file holds the JSON array that encodes `cards`. -/
  | decoded (cards : List Card)
  /-- The file cannot be read or does not decode as an array of cards: one of the two
  calls reports the error `err`, and `left` is what `json.Unmarshal` leaves in the
  target slice (nil for unreadable files and syntax errors, a partly filled slice
  for a type mismatch inside an array). -/
  | broken (left : List Card) (err : String)
deriving DecidableEq, Repr

/-- Go `ensureDataFile`, when it returns (`log.Fatal` ends the process otherwise):
an absent file is created with the contents `[]`. -/
def ensureDataFile : DataFile → DataFile
  | .absent => .decoded []
  | f => f

/-- The statements `raw, _ := os.ReadFile(dataFile); var cards []Card;
json.Unmarshal(raw, &cards)` of the write handlers: both errors are dropped and
`cards` is whatever the decoder left. -/
def loadCards : DataFile → List Card
  | .absent => []
  | .decoded cards => cards
  | .broken left _ => left

/-- Go `readCards`, which returns both errors; the second component is the file
after `ensureDataFile`. -/
def readCards (file : DataFile) : Except String (List Card) × DataFile :=
  let file := ensureDataFile file
  match file with
  | .decoded cards => (.ok cards, file)
  | .broken _ err => (.error err, file)
  | .absent => (.error "open: no such file", file)

/-- Go `writeCards`. `failure = none`: `os.WriteFile` succeeds and the file holds the
encoding of `cards`; `failure = some f`: it reports an error and leaves the file
as `f`. Returns whether an error is reported, and the file. -/
def writeCards (failure : Option DataFile) (cards : List Card) : Bool × DataFile :=
  match failure with
  | none => (false, .decoded cards)
  | some f => (true, f)

/-- The request methods the handlers distinguish. -/
inductive Method where
  | GET | POST | PUT | DELETE | other
deriving DecidableEq, Repr

/-- An HTTP request as the handlers see it: the method and the result of `readBody(r)`
(the decoded card, `Card{}` for an empty body, or the error message). -/
structure Request where
  method : Method
  body : Except String Card

/-- The JSON value passed to `jsonResponse`. -/
inductive Body where
  /-- One card. -/
  | card (c : Card)
  /-- The whole collection. -/
  | cards (cs : List Card)
  /-- The object with `"ok": true` and `"removed"`. -/
  | removed (c : Card)
  /-- The object with `"error"` and, for a read failure, `"detail"`. -/
  | error (msg : String) (detail : Option String)
deriving DecidableEq, Repr

/-- What a handler leaves: the status and body given to `jsonResponse`, and the data file. -/
structure Outcome where
  status : Nat
  body : Body
  file : DataFile
deriving DecidableEq, Repr

/-- Go `handleCardsCollection`. -/
def handleCardsCollection (file : DataFile) (now : Int) (failure : Option DataFile)
    (r : Request) : Outcome :=
  match r.method with
  | .GET =>
    match readCards file with
    | (.error err, file) => ⟨500, .error "读取卡片失败" (some err), file⟩
    | (.ok cards, file) => ⟨200, .cards cards, file⟩
  | .POST =>
    match r.body with
    | .error err => ⟨400, .error err none, file⟩
    | .ok input =>
      let file := ensureDataFile file
      let cards := loadCards file
      match validateCard input cards [] now with
      | .error err => ⟨400, .error err none, file⟩
      | .ok validated =>
        let cards := cards ++ [validated]
        match writeCards failure cards with
        | (true, file) => ⟨500, .error "写入失败" none, file⟩
        | (false, file) => ⟨201, .card validated, file⟩
  | _ => ⟨405, .error "Method Not Allowed" none, file⟩

/-- Lines 254–260: the index of the first card with the given ID (`none` for `-1`). -/
def findIndex (id : GoString) : List Card → Option Nat
  | [] => none
  | c :: cs => if c.ID = id then some 0 else (findIndex id cs).map (· + 1)

/-- Go `handleCardByID`. -/
def handleCardByID (file : DataFile) (now : Int) (failure : Option DataFile)
    (r : Request) (id : GoString) : Outcome :=
  let file := ensureDataFile file
  let cards := loadCards file
  let index := findIndex id cards
  let notFound : Outcome := ⟨404, .error "卡片不存在" none, file⟩
  match r.method with
  | .GET =>
    match index with
    | none => notFound
    | some index => ⟨200, .card (cards.getD index Card.zero), file⟩
  | .PUT =>
    match index with
    | none => notFound
    | some index =>
      match r.body with
      | .error err => ⟨400, .error err none, file⟩
      | .ok input =>
        let input := { input with ID := id }
        match validateCard input cards id now with
        | .error err => ⟨400, .error err none, file⟩
        | .ok validated =>
          let cards := cards.set index validated
          match writeCards failure cards with
          | (true, file) => ⟨500, .error "写入失败" none, file⟩
          | (false, file) => ⟨200, .card validated, file⟩
  | .DELETE =>
    match index with
    | none => notFound
    | some index =>
      let removed := cards.getD index Card.zero
      let cards := cards.take index ++ cards.drop (index + 1)
      match writeCards failure cards with
      | (true, file) => ⟨500, .error "写入失败" none, file⟩
      | (false, file) => ⟨200, .removed removed, file⟩
  | _ => ⟨405, .error "Method Not Allowed" none, file⟩

/-- Go `strings.TrimPrefix`. -/
def TrimPrefix (s pre : GoString) : GoString :=
  if pre.isPrefixOf s then s.drop pre.length else s

/-- Go `handleAPICards`: `path` is `r.URL.Path`. -/
def handleAPICards (file : DataFile) (now : Int) (failure : Option DataFile)
    (path : GoString) (r : Request) : Outcome :=
  let trimmed := TrimPrefix path "/api/cards".toList
  let trimmed := TrimPrefix trimmed "/".toList
  let id := TrimSpace trimmed
  if id = [] then handleCardsCollection file now failure r
  else handleCardByID file now failure r id

/-! ## The algorithms as the specification words them -/

/-- Slugification step 2 in the specification's words: every maximal run of
characters outside the slug alphabet is replaced with a single hyphen. A run
that starts at a rejected character extends over all the rejected characters
that follow it. -/
def specCollapse : GoString → GoString
  | [] => []
  | c :: cs =>
    if slugKeep c then c :: specCollapse cs
    else '-' :: specCollapse (cs.dropWhile (fun d => !slugKeep d))
termination_by s => s.length
decreasing_by
  all_goals simp_wf
  all_goals
    have h := (List.dropWhile_sublist (fun d => !slugKeep d) (l := cs)).length_le
    omega

/-- Slugification step 3 in the specification's words: leading and trailing hyphens go. -/
def specTrimHyphens (s : GoString) : GoString :=
  (s.dropWhile (fun c => c == '-')).rdropWhile (fun c => c == '-')

/-- Slugification steps 1–3 of the specification: the slug before truncation. -/
def specSlug (text : GoString) : GoString :=
  specTrimHyphens (specCollapse (ToLower text))

/-- The UTF-8 bytes of a Go string. -/
def utf8Bytes (s : GoString) : List UInt8 := s.flatMap String.utf8EncodeChar

/-- Validation step 4 of the specification: the effective ID of an input. -/
def effectiveID (input : Card) (now : Int) : GoString :=
  if TrimSpace input.ID ≠ [] then TrimSpace input.ID
  else if slugify (TrimSpace input.Term) ≠ [] then slugify (TrimSpace input.Term)
  else "card-".toList ++ formatInt now

/-- Validation step 2 of the specification: one of the six required fields is empty
after trimming. -/
abbrev requiredMissing (input : Card) : Prop :=
  TrimSpace input.Term = [] ∨ TrimSpace input.Category = [] ∨ TrimSpace input.Core = [] ∨
  TrimSpace input.Boundary = [] ∨ TrimSpace input.Signal = [] ∨ TrimSpace input.Action = []

/-- Validation step 5 of the specification: the effective ID is the ID of an existing
record whose ID is not `existingID`. -/
abbrev idTaken (input : Card) (cards : List Card) (existingID : GoString) (now : Int) : Prop :=
  ∃ c ∈ cards, c.ID = effectiveID input now ∧ c.ID ≠ existingID

/-- Validation steps 1, 3, 4 and 6 of the specification: the normalized card. -/
def normalized (input : Card) (now : Int) : Card :=
  { ID := effectiveID input now
    Term := TrimSpace input.Term
    Category := TrimSpace input.Category
    Core := TrimSpace input.Core
    Boundary := TrimSpace input.Boundary
    Signal := TrimSpace input.Signal
    Action := TrimSpace input.Action
    Aliases := (input.Aliases.map TrimSpace).filter (fun a => a ≠ []) }

/-- The validation algorithm of the specification (steps 1–6); `none` is `ValidationError`. -/
def validateSpec (input : Card) (cards : List Card) (existingID : GoString) (now : Int) :
    Option Card :=
  if requiredMissing input ∨ idTaken input cards existingID now then none
  else some (normalized input now)

/-- A request body used in the examples: six filled fields, no ID, no aliases. -/
def sampleInput : Card :=
  { ID := [], Term := "Idempotence".toList, Category := "Concept".toList, Core := "x".toList,
    Boundary := "y".toList, Signal := "z".toList, Action := "w".toList, Aliases := [] }

/-- A term whose slug has 81 runes before truncation: 79 times `a`, a space, `b`. -/
def longTerm : GoString := List.replicate 79 'a' ++ " b".toList

/-! ## Slug theorems -/

theorem head?_dropWhile_false (p : Char → Bool) (l : GoString) (c : Char)
    (h : (l.dropWhile p).head? = some c) : p c = false := by
  induction l with
  | nil => simp at h
  | cons a t ih =>
    by_cases hp : p a = true
    · rw [List.dropWhile_cons_of_pos hp] at h
      exact ih h
    · rw [List.dropWhile_cons_of_neg hp] at h
      simp at h
      subst h
      simpa using hp

theorem trimFunc_eq (p : Char → Bool) (s : GoString) :
    trimFunc p s = (s.dropWhile p).rdropWhile p := rfl

theorem trimFunc_getLast? (p : Char → Bool) (s : GoString) (c : Char)
    (h : (trimFunc p s).getLast? = some c) : p c = false := by
  unfold trimFunc at h
  rw [List.getLast?_reverse] at h
  exact head?_dropWhile_false p _ c h

theorem trimFunc_head? (p : Char → Bool) (s : GoString) (c : Char)
    (h : (trimFunc p s).head? = some c) : p c = false := by
  rw [trimFunc_eq] at h
  obtain ⟨t, ht⟩ := List.rdropWhile_prefix p (s.dropWhile p)
  apply head?_dropWhile_false p s c
  rw [← ht]
  cases hr : List.rdropWhile p (List.dropWhile p s) with
  | nil => rw [hr] at h; simp at h
  | cons a r => rw [hr] at h; simpa using h

theorem replaceFrom_true_dropWhile (l : GoString) :
    replaceFrom true l = replaceFrom false (l.dropWhile (fun d => !slugKeep d)) := by
  induction l with
  | nil => rfl
  | cons c cs ih =>
    by_cases hk : slugKeep c = true
    · rw [List.dropWhile_cons_of_neg (by simp [hk])]
      simp [replaceFrom, hk]
    · rw [List.dropWhile_cons_of_pos (by simpa using hk)]
      simp [replaceFrom, hk, ih]

theorem specCollapse_eq (n : Nat) : ∀ l : GoString, l.length ≤ n →
    specCollapse l = slugReReplaceAll l := by
  induction n with
  | zero =>
    intro l hl
    have : l = [] := List.length_eq_zero.mp (by omega)
    subst this
    simp [specCollapse, slugReReplaceAll, replaceFrom]
  | succ n ih =>
    intro l hl
    cases l with
    | nil => simp [specCollapse, slugReReplaceAll, replaceFrom]
    | cons c cs =>
      have hcs : cs.length ≤ n := by simpa using hl
      by_cases hk : slugKeep c = true
      · rw [specCollapse]
        simp only [hk, if_true, slugReReplaceAll, replaceFrom]
        rw [ih cs hcs]; rfl
      · have hd : (cs.dropWhile (fun d => !slugKeep d)).length ≤ n :=
          le_trans (List.dropWhile_sublist _).length_le hcs
        rw [specCollapse]
        simp only [hk, slugReReplaceAll, replaceFrom]
        rw [ih _ hd, replaceFrom_true_dropWhile]
        simp [slugReReplaceAll]

theorem specSlug_eq (text : GoString) : specSlug text = slugUntruncated text := by
  unfold specSlug slugUntruncated specTrimHyphens TrimHyphen
  rw [specCollapse_eq _ _ le_rfl, trimFunc_eq]

theorem slugify_eq_take (text : GoString) : slugify text = (slugUntruncated text).take 80 := by
  unfold slugify RuneCountInString
  by_cases h : (slugUntruncated text).length > 80
  · simp [h]
  · simp only [h, if_false]
    exact (List.take_of_length_le (by omega)).symm

/-- C8: `slugify` is the specification's lower-casing, collapsing of every maximal
run of characters outside `a-z`, `0-9`, U+4E00..U+9FA5 into one hyphen and trimming
of hyphens at both ends (cut to 80 code points), and it maps `Hello World` to
`hello-world`, `  API/Design!! ` to `api-design` and `中文 Term` to `中文-term`. -/
theorem slugify_refines_spec :
    (∀ text : GoString, slugify text = (specSlug text).take 80) ∧
    slugify "Hello World".toList = "hello-world".toList ∧
    slugify "  API/Design!! ".toList = "api-design".toList ∧
    slugify "中文 Term".toList = "中文-term".toList := by
  refine ⟨fun text => ?_, by decide, by decide, by decide⟩
  rw [specSlug_eq, slugify_eq_take]

/-- C9: the result of `slugify` has `min 80 n` code points, `n` being the length of
the untruncated slug, so never more than 80; it is a prefix of the untruncated slug
code point by code point, and its UTF-8 bytes are a prefix of that slug's bytes. -/
theorem slugify_truncation (text : GoString) :
    (slugify text).length ≤ 80 ∧
    (slugify text).length = min 80 (slugUntruncated text).length ∧
    slugify text <+: slugUntruncated text ∧
    utf8Bytes (slugify text) <+: utf8Bytes (slugUntruncated text) := by
  have hp : slugify text <+: slugUntruncated text := by
    rw [slugify_eq_take]; exact List.take_prefix _ _
  refine ⟨?_, ?_, hp, ?_⟩
  · rw [slugify_eq_take, List.length_take]; omega
  · rw [slugify_eq_take, List.length_take]
  · obtain ⟨t, ht⟩ := hp
    refine ⟨utf8Bytes t, ?_⟩
    rw [← ht]
    simp [utf8Bytes]

/-- C10, counterexample: for 79 times `a` followed by ` b` the slug before truncation
is 79 times `a`, `-`, `b`; cut to 80 code points it ends with the hyphen. -/
theorem slugify_longTerm_ends_with_hyphen :
    slugify longTerm = List.replicate 79 'a' ++ ['-'] ∧
    (slugify longTerm).getLast? = some '-' := by
  decide

/-- C10, amended: the result of `slugify` never begins with a hyphen, and it ends with a
hyphen exactly when the untruncated slug has more than 80 code points and its 80th
code point is a hyphen. -/
theorem slugify_hyphen_ends_exact (text : GoString) :
    (slugify text).head? ≠ some '-' ∧
    ((slugify text).getLast? = some '-' ↔
      (80 < (slugUntruncated text).length ∧ (slugUntruncated text)[79]? = some '-')) := by
  constructor
  · intro h
    rw [slugify_eq_take] at h
    have hu : (slugUntruncated text).head? = some '-' := by
      cases hs : slugUntruncated text with
      | nil => rw [hs] at h; simp at h
      | cons a r => rw [hs] at h; simpa using h
    have := trimFunc_head? _ _ _ hu
    simp at this
  · rw [slugify_eq_take]
    by_cases hlen : (slugUntruncated text).length ≤ 80
    · rw [List.take_of_length_le hlen]
      constructor
      · intro h
        have := trimFunc_getLast? _ _ _ h
        simp at this
      · rintro ⟨h, -⟩
        omega
    · have hl : ((slugUntruncated text).take 80).length = 80 := by
        rw [List.length_take]; omega
      have hlast : ((slugUntruncated text).take 80).getLast? = (slugUntruncated text)[79]? := by
        rw [List.getLast?_eq_getElem?, hl, List.getElem?_take_of_lt (by omega)]
      rw [hlast]
      constructor
      · intro h
        exact ⟨by omega, h⟩
      · rintro ⟨-, h⟩
        exact h

/-! ## Validation theorems -/

theorem collectAliases_foldl (l : List GoString) (acc : List GoString) :
    l.foldl (fun aliases a => if TrimSpace a ≠ [] then aliases ++ [TrimSpace a] else aliases) acc
      = acc ++ (l.map TrimSpace).filter (fun a => a ≠ []) := by
  induction l generalizing acc with
  | nil => simp
  | cons a t ih =>
    simp only [List.foldl_cons, List.map_cons]
    rw [ih]
    by_cases h : TrimSpace a = []
    · simp [h]
    · simp [h, List.filter_cons]

theorem collectAliases_eq (l : List GoString) :
    collectAliases l = (l.map TrimSpace).filter (fun a => a ≠ []) := by
  unfold collectAliases
  simpa using collectAliases_foldl l []

theorem assignID_eq (input : Card) (now : Int) :
    assignID input.ID (TrimSpace input.Term) now = effectiveID input now := by
  unfold assignID effectiveID
  by_cases h1 : TrimSpace input.ID = []
  · by_cases h2 : slugify (TrimSpace input.Term) = []
    · simp [h1, h2]
    · simp [h1, h2]
  · simp [h1]

theorem hasDuplicate_iff (id existingID : GoString) (cards : List Card) :
    hasDuplicate id existingID cards = true ↔ ∃ c ∈ cards, c.ID = id ∧ c.ID ≠ existingID := by
  induction cards with
  | nil => simp [hasDuplicate]
  | cons c cs ih =>
    unfold hasDuplicate
    by_cases h : c.ID = id ∧ c.ID ≠ existingID
    · rw [if_pos h]
      exact ⟨fun _ => ⟨c, List.mem_cons_self _ _, h⟩, fun _ => rfl⟩
    · rw [if_neg h, ih]
      constructor
      · rintro ⟨d, hd, hd2⟩
        exact ⟨d, List.mem_cons_of_mem _ hd, hd2⟩
      · rintro ⟨d, hd, hd2⟩
        rcases List.mem_cons.mp hd with rfl | hd
        · exact absurd hd2 h
        · exact ⟨d, hd, hd2⟩

theorem validateCard_eq (input : Card) (cards : List Card) (existingID : GoString) (now : Int) :
    validateCard input cards existingID now =
      if requiredMissing input then .error errRequired
      else if idTaken input cards existingID now then .error (errDuplicate (effectiveID input now))
      else .ok (normalized input now) := by
  unfold validateCard
  by_cases hreq : requiredMissing input
  · rw [if_pos hreq, if_pos hreq]
  · rw [if_neg hreq, if_neg hreq]
    simp only []
    rw [assignID_eq, collectAliases_eq]
    by_cases hd : idTaken input cards existingID now
    · rw [if_pos hd, if_pos ((hasDuplicate_iff _ _ _).mpr hd)]
    · rw [if_neg hd, if_neg (fun h => hd ((hasDuplicate_iff _ _ _).mp h))]
      rfl

theorem effectiveID_ne_nil (input : Card) (now : Int) : effectiveID input now ≠ [] := by
  unfold effectiveID
  by_cases h1 : TrimSpace input.ID = []
  · by_cases h2 : slugify (TrimSpace input.Term) = []
    · simp [h1, h2]
    · simp [h1, h2]
  · simp [h1]

/-- C7: `validateCard` is the validation algorithm of the specification: its result,
with the error message dropped, is that of `validateSpec` for every input, collection,
`existingID` and clock value; it reports an error exactly when a required field is
empty after trimming or the effective ID is that of an existing card whose ID is not
`existingID`. -/
theorem validateCard_refines_spec (input : Card) (cards : List Card) (existingID : GoString)
    (now : Int) :
    (validateCard input cards existingID now).toOption = validateSpec input cards existingID now ∧
    ((∃ msg, validateCard input cards existingID now = .error msg) ↔
      (requiredMissing input ∨ idTaken input cards existingID now)) := by
  rw [validateCard_eq]
  unfold validateSpec
  by_cases hreq : requiredMissing input
  · simp [hreq, Except.toOption]
  · by_cases hd : idTaken input cards existingID now
    · simp [hreq, hd, Except.toOption]
    · simp [hreq, hd, Except.toOption]

/-! ## Routing -/

theorem dropWhile_eq_self_of_head? (p : Char → Bool) (l : GoString)
    (h : ∀ c, l.head? = some c → p c = false) : l.dropWhile p = l := by
  cases l with
  | nil => rfl
  | cons a t =>
    have ha : p a = false := h a rfl
    simp [List.dropWhile_cons, ha]

theorem trimFunc_idem (p : Char → Bool) (s : GoString) :
    trimFunc p (trimFunc p s) = trimFunc p s := by
  have h1 : (trimFunc p s).dropWhile p = trimFunc p s :=
    dropWhile_eq_self_of_head? p _ (fun c hc => trimFunc_head? p s c hc)
  have h2 : ((trimFunc p s).reverse).dropWhile p = (trimFunc p s).reverse :=
    dropWhile_eq_self_of_head? p _ (fun c hc => by
      rw [List.head?_reverse] at hc
      exact trimFunc_getLast? p s c hc)
  have h3 : trimFunc p (trimFunc p s) =
      ((((trimFunc p s).dropWhile p).reverse).dropWhile p).reverse := rfl
  rw [h3, h1, h2, List.reverse_reverse]

theorem TrimSpace_idem (s : GoString) : TrimSpace (TrimSpace s) = TrimSpace s :=
  trimFunc_idem isSpace s

theorem handleAPICards_by_id (file : DataFile) (now : Int) (failure : Option DataFile)
    (path : GoString) (r : Request)
    (h : TrimSpace (TrimPrefix (TrimPrefix path "/api/cards".toList) "/".toList) ≠ []) :
    ∃ id, id ≠ [] ∧ TrimSpace id = id ∧
      handleAPICards file now failure path r = handleCardByID file now failure r id := by
  refine ⟨_, h, TrimSpace_idem _, ?_⟩
  unfold handleAPICards
  simp only []
  rw [if_neg h]

/-! ## Handler theorems -/

theorem validateCard_ok_of_fresh (input : Card) (cards : List Card) (now : Int)
    (hreq : ¬ requiredMissing input) (hfresh : effectiveID input now ∉ ids cards) :
    validateCard input cards [] now = .ok (normalized input now) := by
  rw [validateCard_eq, if_neg hreq, if_neg]
  rintro ⟨c, hc, hid, -⟩
  exact hfresh (hid ▸ List.mem_map_of_mem Card.ID hc)

theorem validateCard_ok_id (input : Card) (cards : List Card) (existingID : GoString) (now : Int)
    (card : Card) (h : validateCard input cards existingID now = .ok card) :
    card = normalized input now ∧ ¬ requiredMissing input ∧
      ¬ idTaken input cards existingID now := by
  rw [validateCard_eq] at h
  by_cases hreq : requiredMissing input
  · rw [if_pos hreq] at h; cases h
  · by_cases hd : idTaken input cards existingID now
    · rw [if_neg hreq, if_pos hd] at h; cases h
    · rw [if_neg hreq, if_neg hd] at h
      injection h with h
      exact ⟨h.symm, hreq, hd⟩

theorem post_status_201 (file : DataFile) (now : Int) (failure : Option DataFile) (input : Card)
    (h : (handleCardsCollection file now failure ⟨.POST, .ok input⟩).status = 201) :
    failure = none ∧
    validateCard input (loadCards (ensureDataFile file)) [] now = .ok (normalized input now) ∧
    handleCardsCollection file now failure ⟨.POST, .ok input⟩ =
      ⟨201, .card (normalized input now),
        .decoded (loadCards (ensureDataFile file) ++ [normalized input now])⟩ := by
  simp only [handleCardsCollection] at h ⊢
  cases hv : validateCard input (loadCards (ensureDataFile file)) [] now with
  | error e => rw [hv] at h; simp at h
  | ok card =>
    obtain ⟨hc, -, -⟩ := validateCard_ok_id _ _ _ _ _ hv
    subst hc
    rw [hv] at h
    cases failure with
    | some f => simp [writeCards] at h
    | none => simp [writeCards]

/-- C3: for a collection `cards` and an input whose six required fields are non-empty
after trimming and whose effective ID no card of `cards` holds, POST (with the write
succeeding) answers 201 with a card whose ID is the effective ID and is non-empty, the
file then holds `cards` with that card appended at the end, and exactly one card of
the new collection has the returned ID. -/
theorem create_appends_validated (cards : List Card) (input : Card) (now : Int)
    (hreq : ¬ requiredMissing input) (hfresh : effectiveID input now ∉ ids cards) :
    ∃ card : Card,
      handleCardsCollection (.decoded cards) now none ⟨.POST, .ok input⟩ =
        ⟨201, .card card, .decoded (cards ++ [card])⟩ ∧
      card = normalized input now ∧
      card.ID = effectiveID input now ∧
      card.ID ≠ [] ∧
      (cards ++ [card]).countP (fun c => c.ID = card.ID) = 1 := by
  refine ⟨normalized input now, ?_, rfl, rfl, effectiveID_ne_nil input now, ?_⟩
  · simp [handleCardsCollection, ensureDataFile, loadCards, writeCards,
      validateCard_ok_of_fresh input cards now hreq hfresh]
  · rw [List.countP_append]
    have h0 : List.countP (fun c => decide (c.ID = (normalized input now).ID)) cards = 0 := by
      rw [List.countP_eq_zero]
      intro c hc hid
      have hid : c.ID = effectiveID input now := of_decide_eq_true hid
      exact hfresh (hid ▸ List.mem_map_of_mem Card.ID hc)
    rw [h0]
    simp [List.countP_cons]

theorem create_appends_validated_witness :
    ∃ card : Card,
      handleCardsCollection (.decoded []) 0 none ⟨.POST, .ok sampleInput⟩ =
        ⟨201, .card card, .decoded ([] ++ [card])⟩ ∧
      card = normalized sampleInput 0 ∧
      card.ID = effectiveID sampleInput 0 ∧
      card.ID ≠ [] ∧
      (([] : List Card) ++ [card]).countP (fun c => c.ID = card.ID) = 1 :=
  create_appends_validated [] sampleInput 0 (by decide) (by decide)

/-- C4: when POST of a first input answers 201, POST of any second input with the same
effective ID on the resulting file answers 400 with an error body and leaves the file,
hence the collection and its size, as the first POST left it. -/
theorem second_create_same_id_rejected (cards : List Card) (first second : Card)
    (now₁ now₂ : Int) (failure₁ failure₂ : Option DataFile)
    (hid : effectiveID first now₁ = effectiveID second now₂)
    (hok : (handleCardsCollection (.decoded cards) now₁ failure₁ ⟨.POST, .ok first⟩).status = 201) :
    ∃ (created : Card) (msg : String),
      (handleCardsCollection (.decoded cards) now₁ failure₁ ⟨.POST, .ok first⟩).file =
        .decoded (cards ++ [created]) ∧
      handleCardsCollection (.decoded (cards ++ [created])) now₂ failure₂ ⟨.POST, .ok second⟩ =
        ⟨400, .error msg none, .decoded (cards ++ [created])⟩ := by
  obtain ⟨-, -, hout⟩ := post_status_201 _ _ _ _ hok
  simp only [ensureDataFile, loadCards] at hout
  have htaken : idTaken second (cards ++ [normalized first now₁]) [] now₂ :=
    ⟨normalized first now₁, by simp, hid, effectiveID_ne_nil first now₁⟩
  refine ⟨normalized first now₁, ?_, by rw [hout], ?_⟩
  · exact if requiredMissing second then errRequired else errDuplicate (effectiveID second now₂)
  · simp only [handleCardsCollection, ensureDataFile, loadCards]
    rw [validateCard_eq]
    by_cases hreq : requiredMissing second
    · simp only [if_pos hreq]
    · simp only [if_neg hreq, if_pos htaken]

theorem second_create_same_id_rejected_witness :
    ∃ (created : Card) (msg : String),
      (handleCardsCollection (.decoded []) 0 none ⟨.POST, .ok sampleInput⟩).file =
        .decoded ([] ++ [created]) ∧
      handleCardsCollection (.decoded ([] ++ [created])) 7 none ⟨.POST, .ok sampleInput⟩ =
        ⟨400, .error msg none, .decoded ([] ++ [created])⟩ :=
  second_create_same_id_rejected [] sampleInput sampleInput 0 7 none none (by decide) (by decide)

theorem findIndex_split (id : GoString) : ∀ (cards : List Card) (i : Nat),
    findIndex id cards = some i →
    ∃ pre c post, cards = pre ++ c :: post ∧ pre.length = i ∧ c.ID = id ∧
      ∀ p ∈ pre, p.ID ≠ id := by
  intro cards
  induction cards with
  | nil => intro i h; simp [findIndex] at h
  | cons a t ih =>
    intro i h
    unfold findIndex at h
    by_cases ha : a.ID = id
    · rw [if_pos ha] at h
      injection h with h
      exact ⟨[], a, t, rfl, by simpa using h, ha, by simp⟩
    · rw [if_neg ha] at h
      cases hf : findIndex id t with
      | none => rw [hf] at h; simp at h
      | some j =>
        rw [hf] at h
        simp only [Option.map_some', Option.some.injEq] at h
        obtain ⟨pre, c, post, hc, hlen, hid, hpre⟩ := ih j hf
        refine ⟨a :: pre, c, post, by rw [hc]; rfl, by simp [hlen, h], hid, ?_⟩
        intro p hp
        rcases List.mem_cons.mp hp with rfl | hp
        · exact ha
        · exact hpre p hp

theorem findIndex_of_mem (id : GoString) : ∀ cards : List Card, id ∈ ids cards →
    ∃ i, findIndex id cards = some i := by
  intro cards
  induction cards with
  | nil => intro h; simp [ids] at h
  | cons a t ih =>
    intro h
    unfold findIndex
    by_cases ha : a.ID = id
    · exact ⟨0, by rw [if_pos ha]⟩
    · have ht : id ∈ ids t := by
        simp only [ids, List.map_cons, List.mem_cons] at h
        rcases h with h | h
        · exact absurd h.symm ha
        · exact h
      obtain ⟨j, hj⟩ := ih ht
      exact ⟨j + 1, by rw [if_neg ha, hj]; rfl⟩

theorem getElem?_split (pre post : List Card) (c : Card) :
    (pre ++ c :: post)[pre.length]? = some c := by
  induction pre with
  | nil => simp
  | cons a t ih => simpa using ih

theorem getD_split (pre post : List Card) (c d : Card) :
    (pre ++ c :: post).getD pre.length d = c := by
  rw [List.getD_eq_getElem?_getD, getElem?_split]
  rfl

theorem set_split (pre post : List Card) (c x : Card) :
    (pre ++ c :: post).set pre.length x = pre ++ x :: post := by
  induction pre with
  | nil => rfl
  | cons a t ih => simp [ih]

theorem remove_split (pre post : List Card) (c : Card) :
    (pre ++ c :: post).take pre.length ++ (pre ++ c :: post).drop (pre.length + 1) =
      pre ++ post := by
  induction pre with
  | nil => simp
  | cons a t ih => simp

theorem effectiveID_forced (input : Card) (id : GoString) (now : Int)
    (hne : id ≠ []) (htrim : TrimSpace id = id) :
    effectiveID { input with ID := id } now = id := by
  unfold effectiveID
  simp [htrim, hne]

/-- C5: for a collection that has a card with ID `id`, `id` non-empty and without
surrounding whitespace, and an input whose six required fields are non-empty after
trimming, PUT on `id` (with the write succeeding) answers 200 with the normalized
input under ID `id`, whatever ID the input carries; the card replaces the first record
with that ID at its position, and the length and every other position are unchanged. -/
theorem update_replaces_in_place (cards : List Card) (id : GoString) (input : Card) (now : Int)
    (hne : id ≠ []) (htrim : TrimSpace id = id) (hmem : id ∈ ids cards)
    (hreq : ¬ requiredMissing input) :
    ∃ (i : Nat) (old card : Card),
      findIndex id cards = some i ∧ cards[i]? = some old ∧ old.ID = id ∧
      handleCardByID (.decoded cards) now none ⟨.PUT, .ok input⟩ id =
        ⟨200, .card card, .decoded (cards.set i card)⟩ ∧
      card = { normalized input now with ID := id } ∧
      card.ID = id ∧
      (cards.set i card).length = cards.length ∧
      (cards.set i card)[i]? = some card ∧
      ∀ j, j ≠ i → (cards.set i card)[j]? = cards[j]? := by
  obtain ⟨i, hi⟩ := findIndex_of_mem id cards hmem
  obtain ⟨pre, c, post, hc, hlen, hid, -⟩ := findIndex_split id cards i hi
  have heff := effectiveID_forced input id now hne htrim
  have hnorm : normalized { input with ID := id } now = { normalized input now with ID := id } := by
    simp [normalized, heff]
  have hval : validateCard { input with ID := id } cards id now =
      .ok { normalized input now with ID := id } := by
    rw [validateCard_eq, if_neg hreq, if_neg, hnorm]
    rintro ⟨d, -, hd1, hd2⟩
    rw [heff] at hd1
    exact hd2 hd1
  have hlt : i < cards.length := by rw [hc, ← hlen]; simp
  refine ⟨i, c, { normalized input now with ID := id }, hi, ?_, hid, ?_, rfl, rfl, ?_, ?_, ?_⟩
  · rw [hc, ← hlen]; exact getElem?_split pre post c
  · simp only [handleCardByID, ensureDataFile, loadCards, hi, hval, writeCards]
  · simp
  · simp [List.getElem?_set, hlt]
  · intro j hj
    rw [List.getElem?_set_ne (Ne.symm hj)]

theorem update_replaces_in_place_witness :
    ∃ (i : Nat) (old card : Card),
      findIndex "idempotence".toList [normalized sampleInput 0] = some i ∧
      [normalized sampleInput 0][i]? = some old ∧ old.ID = "idempotence".toList ∧
      handleCardByID (.decoded [normalized sampleInput 0]) 0 none ⟨.PUT, .ok sampleInput⟩
          "idempotence".toList =
        ⟨200, .card card, .decoded ([normalized sampleInput 0].set i card)⟩ ∧
      card = { normalized sampleInput 0 with ID := "idempotence".toList } ∧
      card.ID = "idempotence".toList ∧
      ([normalized sampleInput 0].set i card).length = [normalized sampleInput 0].length ∧
      ([normalized sampleInput 0].set i card)[i]? = some card ∧
      ∀ j, j ≠ i → ([normalized sampleInput 0].set i card)[j]? = [normalized sampleInput 0][j]? :=
  update_replaces_in_place [normalized sampleInput 0] "idempotence".toList sampleInput 0
    (by decide) (by decide) (by decide) (by decide)

/-- C6: for a collection with pairwise distinct IDs that has a card with ID `id`, DELETE
on `id` (with the write succeeding) answers 200 with that card as it was stored, and the
file then holds the collection with exactly that record taken out, the other records
in their order: one record fewer, none with ID `id`. -/
theorem delete_removes_exactly (cards : List Card) (id : GoString) (now : Int)
    (body : Except String Card)
    (hnd : (ids cards).Nodup) (hmem : id ∈ ids cards) :
    ∃ (pre : List Card) (c : Card) (post : List Card),
      cards = pre ++ c :: post ∧ c.ID = id ∧
      handleCardByID (.decoded cards) now none ⟨.DELETE, body⟩ id =
        ⟨200, .removed c, .decoded (pre ++ post)⟩ ∧
      (pre ++ post).length + 1 = cards.length ∧
      id ∉ ids (pre ++ post) := by
  obtain ⟨i, hi⟩ := findIndex_of_mem id cards hmem
  obtain ⟨pre, c, post, hc, hlen, hid, -⟩ := findIndex_split id cards i hi
  refine ⟨pre, c, post, hc, hid, ?_, ?_, ?_⟩
  · simp only [handleCardByID, ensureDataFile, loadCards, hi, writeCards]
    subst hlen
    rw [hc, getD_split, remove_split]
  · rw [hc]; simp; omega
  · rw [hc] at hnd
    simp only [ids, List.map_append, List.map_cons] at hnd ⊢
    rw [List.nodup_middle, List.nodup_cons, hid] at hnd
    exact hnd.1

theorem delete_removes_exactly_witness :
    ∃ (pre : List Card) (c : Card) (post : List Card),
      [normalized sampleInput 0] = pre ++ c :: post ∧ c.ID = "idempotence".toList ∧
      handleCardByID (.decoded [normalized sampleInput 0]) 0 none ⟨.DELETE, .ok Card.zero⟩
          "idempotence".toList =
        ⟨200, .removed c, .decoded (pre ++ post)⟩ ∧
      (pre ++ post).length + 1 = [normalized sampleInput 0].length ∧
      "idempotence".toList ∉ ids (pre ++ post) :=
  delete_removes_exactly [normalized sampleInput 0] "idempotence".toList 0 (.ok Card.zero)
    (by decide) (by decide)

theorem nodup_after_create (input : Card) (cards : List Card) (now : Int) (card : Card)
    (hv : validateCard input cards [] now = .ok card) (hnd : (ids cards).Nodup) :
    (ids (cards ++ [card])).Nodup := by
  obtain ⟨hc, -, hfree⟩ := validateCard_ok_id _ _ _ _ _ hv
  subst hc
  have hnot : effectiveID input now ∉ ids cards := by
    intro hmem
    obtain ⟨c, hc, hid⟩ := List.mem_map.mp hmem
    exact hfree ⟨c, hc, hid, hid ▸ effectiveID_ne_nil input now⟩
  simp only [ids, List.map_append, List.map_cons, List.map_nil]
  rw [List.nodup_middle, List.append_nil]
  exact List.nodup_cons.mpr ⟨hnot, hnd⟩

theorem nodup_after_update (input : Card) (cards : List Card) (id : GoString) (now : Int)
    (card : Card) (i : Nat)
    (hv : validateCard input cards id now = .ok card) (hi : findIndex id cards = some i)
    (hnd : (ids cards).Nodup) :
    (ids (cards.set i card)).Nodup := by
  obtain ⟨hcard, -, hfree⟩ := validateCard_ok_id _ _ _ _ _ hv
  obtain ⟨pre, c, post, hc, hlen, hid, -⟩ := findIndex_split id cards i hi
  subst hlen
  rw [hc, set_split]
  rw [hc] at hnd
  simp only [ids, List.map_append, List.map_cons] at hnd ⊢
  by_cases he : card.ID = id
  · rw [he, ← hid]; exact hnd
  · have hnot : card.ID ∉ ids cards := by
      intro hmem
      obtain ⟨d, hd, hdid⟩ := List.mem_map.mp hmem
      have hd2 : d.ID ≠ id := fun h => he (hdid ▸ h)
      exact hfree ⟨d, hd, by rw [hdid, hcard]; rfl, hd2⟩
    rw [hc] at hnot
    simp only [ids, List.map_append, List.map_cons, List.mem_append, List.mem_cons] at hnot
    rw [List.nodup_middle, List.nodup_cons] at hnd ⊢
    refine ⟨?_, hnd.2⟩
    intro hmem
    rcases List.mem_append.mp hmem with h | h
    · exact hnot (Or.inl h)
    · exact hnot (Or.inr (Or.inr h))

theorem nodup_after_delete (cards : List Card) (id : GoString) (i : Nat)
    (hi : findIndex id cards = some i) (hnd : (ids cards).Nodup) :
    (ids (cards.take i ++ cards.drop (i + 1))).Nodup := by
  obtain ⟨pre, c, post, hc, hlen, -, -⟩ := findIndex_split id cards i hi
  subst hlen
  rw [hc, remove_split]
  rw [hc] at hnd
  simp only [ids, List.map_append, List.map_cons] at hnd ⊢
  rw [List.nodup_middle, List.nodup_cons] at hnd
  exact hnd.2

/-- C1: when the collection a handler loads has pairwise distinct IDs, every request
that is answered with a success status (POST, PUT and DELETE included, through either
handler, for every body, clock value and path ID) leaves a file whose collection has
pairwise distinct IDs. -/
theorem writes_keep_ids_distinct (file : DataFile) (now : Int) (failure : Option DataFile)
    (r : Request) (id : GoString)
    (hnd : (ids (loadCards (ensureDataFile file))).Nodup) :
    ((handleCardsCollection file now failure r).status < 300 →
      (ids (loadCards (handleCardsCollection file now failure r).file)).Nodup) ∧
    ((handleCardByID file now failure r id).status < 300 →
      (ids (loadCards (handleCardByID file now failure r id).file)).Nodup) := by
  obtain ⟨method, body⟩ := r
  constructor
  · cases method with
    | GET =>
      cases file with
      | absent => intro _; simp [handleCardsCollection, readCards, ensureDataFile, loadCards, ids]
      | decoded cs =>
        intro _
        simpa [handleCardsCollection, readCards, ensureDataFile, loadCards] using hnd
      | broken left err => simp [handleCardsCollection, readCards, ensureDataFile]
    | POST =>
      cases body with
      | error e => simp [handleCardsCollection]
      | ok input =>
        simp only [handleCardsCollection]
        cases hv : validateCard input (loadCards (ensureDataFile file)) [] now with
        | error e => simp
        | ok card =>
          cases failure with
          | some f => simp [writeCards]
          | none =>
            intro _
            simpa [writeCards, loadCards] using nodup_after_create _ _ _ _ hv hnd
    | PUT => simp [handleCardsCollection]
    | DELETE => simp [handleCardsCollection]
    | other => simp [handleCardsCollection]
  · simp only [handleCardByID]
    cases hi : findIndex id (loadCards (ensureDataFile file)) with
    | none =>
      cases method <;> simp
    | some i =>
      have hens : loadCards (ensureDataFile (ensureDataFile file)) =
          loadCards (ensureDataFile file) := by cases file <;> rfl
      cases method with
      | GET => intro _; exact hnd
      | POST => simp
      | other => simp
      | PUT =>
        cases body with
        | error e => simp
        | ok input =>
          simp only []
          cases hv : validateCard { input with ID := id } (loadCards (ensureDataFile file))
              id now with
          | error e => simp
          | ok card =>
            cases failure with
            | some f => simp [writeCards]
            | none =>
              intro _
              simpa [writeCards, loadCards] using nodup_after_update _ _ _ _ _ _ hv hi hnd
      | DELETE =>
        cases failure with
        | some f => simp [writeCards]
        | none =>
          intro _
          simpa [writeCards, loadCards] using nodup_after_delete _ _ _ hi hnd

theorem writes_keep_ids_distinct_witness :
    ((handleCardsCollection (.decoded [normalized sampleInput 0]) 0 none
        ⟨.POST, .ok { sampleInput with ID := "second".toList }⟩).status < 300 ∧
      (ids (loadCards (handleCardsCollection (.decoded [normalized sampleInput 0]) 0 none
        ⟨.POST, .ok { sampleInput with ID := "second".toList }⟩).file)).Nodup) ∧
    ((handleCardByID (.decoded [normalized sampleInput 0]) 0 none
        ⟨.PUT, .ok sampleInput⟩ "idempotence".toList).status < 300 ∧
      (ids (loadCards (handleCardByID (.decoded [normalized sampleInput 0]) 0 none
        ⟨.PUT, .ok sampleInput⟩ "idempotence".toList).file)).Nodup) :=
  ⟨⟨by decide,
      (writes_keep_ids_distinct (.decoded [normalized sampleInput 0]) 0 none
        ⟨.POST, .ok { sampleInput with ID := "second".toList }⟩ [] (by decide)).1 (by decide)⟩,
    ⟨by decide,
      (writes_keep_ids_distinct (.decoded [normalized sampleInput 0]) 0 none
        ⟨.PUT, .ok sampleInput⟩ "idempotence".toList (by decide)).2 (by decide)⟩⟩

/-- C2, the code at a data file that does not decode: GET answers 500 and leaves the
file alone, but POST of a valid card answers 201 and replaces the file with a
collection holding only the new card, PUT and DELETE answer 404, and DELETE on a file
whose decoding stopped with an error after filling one card answers 200 and
replaces the file with the empty collection. -/
theorem broken_file_is_overwritten :
    handleCardsCollection (.broken [] "unexpected end of JSON input") 0 none
        ⟨.GET, .ok Card.zero⟩ =
      ⟨500, .error "读取卡片失败" (some "unexpected end of JSON input"),
        .broken [] "unexpected end of JSON input"⟩ ∧
    handleCardsCollection (.broken [] "unexpected end of JSON input") 0 none
        ⟨.POST, .ok sampleInput⟩ =
      ⟨201, .card { sampleInput with ID := "idempotence".toList },
        .decoded [{ sampleInput with ID := "idempotence".toList }]⟩ ∧
    (handleCardByID (.broken [] "unexpected end of JSON input") 0 none
        ⟨.PUT, .ok sampleInput⟩ "idempotence".toList).status = 404 ∧
    (handleCardByID (.broken [] "unexpected end of JSON input") 0 none
        ⟨.DELETE, .ok Card.zero⟩ "idempotence".toList).status = 404 ∧
    handleCardByID (.broken [normalized sampleInput 0] "cannot unmarshal string") 0 none
        ⟨.DELETE, .ok Card.zero⟩ "idempotence".toList =
      ⟨200, .removed (normalized sampleInput 0), .decoded []⟩ := by
  decide

end CardStore
